import Mathlib

/-!
Shallow embedding of `src/custom/capcom_arcade_stadium/rebuild.py`.

Python `bytes`/`bytearray` values are modelled as `List Nat` (one entry per
byte), Python `str` as `List Char` (`PyStr`), Python `dict` as an
association list with in-place update and insertion-order iteration
(`dictInsert`/`dictGet`), and raised exceptions as `Except String`.
The `zipfile` module is treated as a thin codec: an archive is its ordered
list of members `(name, bytes)` (`Zip`).
-/

namespace Rebuild

/-- Python `str`, as a list of characters. -/
abbrev PyStr := List Char

/-- Python `bytes` / `bytearray`, as a list of byte values. -/
abbrev Bytes := List Nat

/-- An embedded zip archive, abstracted to its ordered member list. -/
abbrev Zip := List (PyStr × Bytes)

/-- Python slice `l[a:b]` (with non-negative bounds): elements at indices
`a ≤ i < b`, clipped to the list. -/
def pyslice (l : Bytes) (a b : Nat) : Bytes :=
  (l.take b).drop a

/-- Python `d[k] = v` on a `dict`: replace in place if the key is present,
otherwise append (insertion order preserved). -/
def dictInsert {κ α : Type} [DecidableEq κ] : List (κ × α) → κ → α → List (κ × α)
  | [], k, v => [(k, v)]
  | (k', v') :: t, k, v =>
      if k' = k then (k, v) :: t else (k', v') :: dictInsert t k v

/-- Python `d[k]` lookup on a `dict`, `none` when the key is absent. -/
def dictGet {κ α : Type} [DecidableEq κ] : List (κ × α) → κ → Option α
  | [], _ => none
  | (k', v') :: t, k => if k' = k then some v' else dictGet t k

/-- Python `s.split(sep)` for a one-character separator: no merging of
adjacent separators, empty fields kept, always at least one field. -/
def splitOnCharL (sep : Char) : List Char → List (List Char)
  | [] => [[]]
  | c :: t =>
      match splitOnCharL sep t with
      | [] => [[c]]
      | h :: r => if c = sep then [] :: h :: r else (c :: h) :: r

/-- Host byte order, the value of Python's `sys.byteorder`. -/
inductive ByteOrder where
  | little
  | big
deriving DecidableEq

/-- Python `int.from_bytes(bs, byteorder)`. -/
def intFromBytes (bo : ByteOrder) (bs : Bytes) : Nat :=
  match bo with
  | .little => bs.foldr (fun b acc => b + 256 * acc) 0
  | .big => bs.foldl (fun acc b => acc * 256 + b) 0

/-! ### Transform steps (`transforms`, rebuild.py lines 47–107)

The pipeline's working state is a list of chunks; each step consumes the
whole list and produces a replacement list. -/

/-- One entry of a part's `transforms` list.  The Python object is a JSON
dict; only the key matching the action is ever read.  The JSON key `end`
is modelled by the field `endOff` (`end` is a Lean keyword). -/
structure TransformStep where
  action : PyStr
  ways : Nat
  word_size_bytes : Nat
  sizes : List Nat
  max_length_bytes : Nat
  start : Nat
  endOff : Nat
deriving DecidableEq

/-- `split` on one chunk (lines 50–56): `ways` contiguous pieces of
`len // ways` bytes each; remainder bytes dropped. -/
def splitChunk (ways : Nat) (chunk : Bytes) : List Bytes :=
  let chunkSize := chunk.length / ways
  (List.range ways).map fun i => pyslice chunk (i * chunkSize) (i * chunkSize + chunkSize)

/-- `split_size` on one chunk (lines 57–64): consecutive slices of the
given lengths starting at offset 0. -/
def splitSizeChunk (sizes : List Nat) (chunk : Bytes) : List Bytes :=
  go 0 sizes
where
  go (offset : Nat) : List Nat → List Bytes
    | [] => []
    | s :: ss => pyslice chunk offset (offset + s) :: go (offset + s) ss

/-- `deinterleave` on one chunk (lines 65–81): group the chunk into
`ways * word_size` byte groups, and send word `j` of every group to output
chunk `j`.  A trailing partial group is dropped by the division. -/
def deinterleaveChunk (numWays wordSize : Nat) (chunk : Bytes) : List Bytes :=
  let groupLen := numWays * wordSize
  let numGroups := chunk.length / groupLen
  (List.range numGroups).foldl
    (fun temp i =>
      let group := pyslice chunk (i * groupLen) (i * groupLen + groupLen)
      (List.range numWays).map fun j =>
        temp.getD j [] ++ pyslice group (j * wordSize) (j * wordSize + wordSize))
    (List.replicate numWays ([] : Bytes))

/-- `truncate` on one chunk (lines 82–88). -/
def truncateChunk (maxSize : Nat) (chunk : Bytes) : Bytes :=
  if chunk.length > maxSize then pyslice chunk 0 maxSize else chunk

/-- `splice_out` on one chunk (lines 89–96): prefix `[0,start)` ++ suffix
`[end,len)`. -/
def spliceOutChunk (start stop : Nat) (chunk : Bytes) : Bytes :=
  pyslice chunk 0 start ++ pyslice chunk stop chunk.length

/-! `endian` (lines 97–103) builds `new_chunk = bytearray(len(chunk))` and
performs the two extended-slice assignments `new_chunk[0::2] = chunk[1::2]`
and `new_chunk[1::2] = chunk[0::2]`.  An extended-slice assignment in
Python requires the source length to equal the number of selected
positions, otherwise it raises `ValueError`. -/

/-- Python `l[0::2]`: elements at even indices. -/
def takeEven : Bytes → Bytes
  | [] => []
  | [a] => [a]
  | a :: _ :: t => a :: takeEven t

/-- Python `l[1::2]`: elements at odd indices. -/
def takeOdd : Bytes → Bytes
  | [] => []
  | [_] => []
  | _ :: b :: t => b :: takeOdd t

/-- `target[0::2] = src`: replace the even positions of `target` with
`src`, `none` (ValueError) when lengths disagree. -/
def assignEven : Bytes → Bytes → Option Bytes
  | [], [] => some []
  | [], _ :: _ => none
  | _ :: _, [] => none
  | [_], s :: ss => match ss with
      | [] => some [s]
      | _ :: _ => none
  | _ :: t1 :: ts, s :: ss => (assignEven ts ss).map fun r => s :: t1 :: r

/-- `target[1::2] = src`: replace the odd positions of `target` with
`src`, `none` (ValueError) when lengths disagree. -/
def assignOdd : Bytes → Bytes → Option Bytes
  | [], [] => some []
  | [], _ :: _ => none
  | [t0], [] => some [t0]
  | [_], _ :: _ => none
  | _ :: _ :: _, [] => none
  | t0 :: _ :: ts, s :: ss => (assignOdd ts ss).map fun r => t0 :: s :: r

/-- The `endian` step on one chunk: `none` models the `ValueError` raised
by a mismatched extended-slice assignment. -/
def endianStep (chunk : Bytes) : Option Bytes := do
  let t := List.replicate chunk.length 0
  let t ← assignEven t (takeOdd chunk)
  let t ← assignOdd t (takeEven chunk)
  pure t

/-- One transform step applied to the working chunk list (the dispatch at
lines 49–105).  An unknown action raises (line 105). -/
def applyTransform (tr : TransformStep) (chunks : List Bytes) : Except String (List Bytes) :=
  if tr.action = "split".data then
    .ok (chunks.flatMap (splitChunk tr.ways))
  else if tr.action = "split_size".data then
    .ok (chunks.flatMap (splitSizeChunk tr.sizes))
  else if tr.action = "deinterleave".data then
    .ok (chunks.flatMap (deinterleaveChunk tr.ways tr.word_size_bytes))
  else if tr.action = "truncate".data then
    .ok (chunks.map (truncateChunk tr.max_length_bytes))
  else if tr.action = "splice_out".data then
    .ok (chunks.map (spliceOutChunk tr.start tr.endOff))
  else if tr.action = "endian".data then
    chunks.mapM fun c =>
      match endianStep c with
      | some d => .ok d
      | none => .error "ValueError: attempt to assign sequence to extended slice of different size"
  else
    .error ("********* Transform action " ++ String.mk tr.action ++ " NYI!")

/-! ### SHA-1 (Python `hashlib.sha1(...).hexdigest()`)

`hashlib` is the Python standard library; it is modelled here by the
SHA-1 algorithm itself (FIPS 180), producing the 40-character lowercase
hex digest that the code compares against `sha1` fields. -/

/-- Rotate a 32-bit word left by `k` (for `n < 2^32`, `k ≤ 32`). -/
def rotl32 (k n : Nat) : Nat :=
  ((n <<< k) % 4294967296) ||| (n >>> (32 - k))

/-- Big-endian 8-byte encoding of `n`. -/
def be64 (n : Nat) : Bytes :=
  (List.range 8).map fun i => (n >>> (8 * (7 - i))) % 256

/-- SHA-1 padding: append `0x80`, zeros to 56 mod 64, then the bit length
as a big-endian 64-bit integer. -/
def sha1Pad (msg : Bytes) : Bytes :=
  let padLen := (120 - (msg.length + 1) % 64) % 64
  msg ++ [128] ++ List.replicate padLen 0 ++ be64 (8 * msg.length)

/-- Group bytes into big-endian 32-bit words. -/
def bytesToWords : Bytes → List Nat
  | b0 :: b1 :: b2 :: b3 :: t => (((b0 * 256 + b1) * 256 + b2) * 256 + b3) :: bytesToWords t
  | _ => []

/-- Split a padded message into 64-byte blocks. -/
def toBlocks (l : Bytes) : List Bytes :=
  (List.range ((l.length + 63) / 64)).map fun i => (l.drop (64 * i)).take 64

/-- Extend the 16 block words to the 80-word message schedule. -/
def sha1Schedule (w : List Nat) : List Nat :=
  (List.range 64).foldl
    (fun ws _ =>
      ws ++ [rotl32 1 ((ws.getD (ws.length - 3) 0) ^^^ (ws.getD (ws.length - 8) 0) ^^^
        (ws.getD (ws.length - 14) 0) ^^^ (ws.getD (ws.length - 16) 0))])
    w

/-- Round function and constant for round `i`. -/
def sha1FK (i b c d : Nat) : Nat × Nat :=
  if i < 20 then ((b &&& c) ||| ((b ^^^ 4294967295) &&& d), 1518500249)
  else if i < 40 then (b ^^^ c ^^^ d, 1859775393)
  else if i < 60 then ((b &&& c) ||| (b &&& d) ||| (c &&& d), 2400959708)
  else (b ^^^ c ^^^ d, 3395469782)

/-- Compress one 64-byte block into the running state. -/
def sha1Block (h : Nat × Nat × Nat × Nat × Nat) (block : Bytes) : Nat × Nat × Nat × Nat × Nat :=
  let w := sha1Schedule (bytesToWords block)
  let (h0, h1, h2, h3, h4) := h
  let final := (List.range 80).foldl
    (fun (st : Nat × Nat × Nat × Nat × Nat) i =>
      let (a, b, c, d, e) := st
      let (f, k) := sha1FK i b c d
      let temp := (rotl32 5 a + f + e + k + w.getD i 0) % 4294967296
      (temp, a, rotl32 30 b, c, d))
    (h0, h1, h2, h3, h4)
  let (a, b, c, d, e) := final
  ((h0 + a) % 4294967296, (h1 + b) % 4294967296, (h2 + c) % 4294967296,
   (h3 + d) % 4294967296, (h4 + e) % 4294967296)

/-- SHA-1 state after hashing `msg`. -/
def sha1 (msg : Bytes) : Nat × Nat × Nat × Nat × Nat :=
  (toBlocks (sha1Pad msg)).foldl sha1Block
    (1732584193, 4023233417, 2562383102, 271733878, 3285377520)

/-- Lowercase hex digit. -/
def hexDigit (n : Nat) : Char :=
  if n < 10 then Char.ofNat (48 + n) else Char.ofNat (87 + n)

/-- 8-character lowercase hex of a 32-bit word. -/
def word32Hex (n : Nat) : PyStr :=
  (List.range 8).map fun i => hexDigit ((n >>> (4 * (7 - i))) % 16)

/-- Python `hashlib.sha1(msg).hexdigest()`. -/
def sha1Hex (msg : Bytes) : PyStr :=
  let (h0, h1, h2, h3, h4) := sha1 msg
  word32Hex h0 ++ word32Hex h1 ++ word32Hex h2 ++ word32Hex h3 ++ word32Hex h4

/-! ### Rule metadata (romlist.json, consumed read-only) -/

/-- One output file descriptor of a Part Spec: declared output name and
expected SHA-1 hex digest. -/
structure FileEntry where
  name : PyStr
  sha1 : PyStr
deriving DecidableEq

/-- The Part Spec for one part-type: `files` and `transforms`. -/
structure PartMeta where
  files : List FileEntry
  transforms : List TransformStep
deriving DecidableEq

/-- One override rule of a rom's `overrides` list.  `strategy` is `none`
when the JSON object has no `strategy` key; `parts` iterates in object
order. -/
structure Override where
  kpka_offset : Nat
  strategy : Option PyStr
  mame_name : PyStr
  parts : List (PyStr × PartMeta)
deriving DecidableEq

/-- One rom's metadata record; `overrides` is `none` when the key is
absent. -/
structure RomMeta where
  overrides : Option (List Override)
deriving DecidableEq

/-! ### The transform engine (`transforms`, rebuild.py lines 24–127) -/

/-- `getType` (lines 30–31): `zip_entry.filename.split('.')[1]`; `none`
models the `IndexError` when the name has no `'.'`. -/
def getType (filename : PyStr) : Option PyStr :=
  (splitOnCharL '.' filename).get? 1

/-- Lines 26–38: read every member and key its bytes by `getType` in a
dict (later members of the same part-type overwrite earlier ones). -/
def origDataOf (z : Zip) : Except String (List (PyStr × Bytes)) :=
  z.foldlM
    (fun d e =>
      match getType e.1 with
      | some t => .ok (dictInsert d t e.2)
      | none => .error "IndexError: list index out of range")
    []

/-- Lines 47–107: fold the transform steps over the working chunk list. -/
def runSteps (steps : List TransformStep) (chunks : List Bytes) : Except String (List Bytes) :=
  steps.foldlM (fun cs tr => applyTransform tr cs) chunks

/-- The `Bad Checksum` diagnostic printed at line 118. -/
structure ChkDiag where
  name : PyStr
  got : PyStr
  expected : PyStr
  length : Nat
deriving DecidableEq

/-- Lines 109–119: pair final chunks positionally with file descriptors,
hash each chunk, record a diagnostic on mismatch, and store the chunk
under its declared name either way.  `file_names[i]` raises `IndexError`
when there are more chunks than descriptors. -/
def checkChunks (nd : List (PyStr × Bytes)) :
    List Bytes → List FileEntry → Except String (List (PyStr × Bytes) × List ChkDiag)
  | [], _ => .ok (nd, [])
  | _ :: _, [] => .error "IndexError: list index out of range"
  | c :: cs, f :: fs =>
      let got := sha1Hex c
      (checkChunks (dictInsert nd f.name c) cs fs).map fun r =>
        (r.1, if got = f.sha1 then r.2 else ⟨f.name, got, f.sha1, c.length⟩ :: r.2)

/-- `transforms(contents, override_meta)` (lines 24–127) at the member
-list abstraction: returns the new archive's members (the `new_data` dict
in insertion order, line 121–127) together with the checksum diagnostics
printed along the way. -/
def transforms (z : Zip) (ov : Override) : Except String (Zip × List ChkDiag) := do
  let origData ← origDataOf z
  ov.parts.foldlM
    (fun acc pt => do
      match dictGet origData pt.1 with
      | none => .error "KeyError"
      | some startData =>
          let chunks ← runSteps pt.2.transforms [startData]
          let r ← checkChunks acc.1 chunks pt.2.files
          .ok (r.1, acc.2 ++ r.2))
    (([] : Zip), ([] : List ChkDiag))

/-! ### Sub-archive rebuild helpers (rebuild.py lines 184–249) -/

/-- `zip_entry.filename.split('/')[0]` (line 219). -/
def getPre (name : PyStr) : PyStr :=
  (splitOnCharL '/' name).headD []

/-- `zip_entry.filename.split('/')[1]` (lines 190, 222); `none` models the
`IndexError` when the name has no `'/'`. -/
def getSecond (name : PyStr) : Option PyStr :=
  (splitOnCharL '/' name).get? 1

/-- `rebuild_mame_subfolder_zip` (lines 213–249): default reconstruction.
Returns the output archive name and its members, or the raised error. -/
def rebuild_mame_subfolder_zip (z : Zip) : Except String (PyStr × Zip) :=
  match z with
  | [] => .error "IndexError: list index out of range"
  | (n0, _) :: _ =>
      if '/' ∈ n0 then
        let pre := getPre n0
        match z.find? (fun e => getPre e.1 != pre) with
        | some e =>
            .error ("not a mame subfolder zip - " ++ String.mk (getPre e.1) ++
              " != " ++ String.mk pre)
        | none => do
            let members ← z.mapM fun e =>
              match getSecond e.1 with
              | some nm => Except.ok (nm, e.2)
              | none => Except.error "IndexError: list index out of range"
            .ok (pre ++ ".zip".data, members)
      else .error "not a mame subfolder zip - no slash in first zip entry"

/-- One output written by the orchestrator: either a repacked archive or
raw member bytes. -/
inductive OutData where
  | zipOut (z : Zip)
  | rawOut (b : Bytes)
deriving DecidableEq

/-- `split_1941` (lines 184–210).  The per-member `try` uses the FIRST
entry's name for its `index('/')` probe; a failure of either that probe or
of `split('/')[1]` routes the member's bytes to `1941.zip`. -/
def split_1941 (z : Zip) : List (PyStr × OutData) :=
  let first? := z.head?
  let acc := z.foldl
    (fun (acc : Zip × List (PyStr × OutData)) e =>
      match first? with
      | none => acc
      | some f =>
          if '/' ∈ f.1 then
            match getSecond e.1 with
            | some nm => (acc.1 ++ [(nm, e.2)], acc.2)
            | none => (acc.1, dictInsert acc.2 "1941.zip".data (.rawOut e.2))
          else (acc.1, dictInsert acc.2 "1941.zip".data (.rawOut e.2)))
    (([] : Zip), ([] : List (PyStr × OutData)))
  dictInsert acc.2 "1941j.zip".data (.zipOut acc.1)

/-! ### Rule resolution and the orchestrator loop (rebuild.py lines 251–336) -/

/-- `find_override` (lines 275–286). -/
def find_override (meta : RomMeta) (offset : Nat) : Except String (Option Override) :=
  match meta.overrides with
  | none => .ok none
  | some ovs =>
      match ovs.filter (fun o => o.kpka_offset == offset) with
      | [] => .ok none
      | [m] => .ok (some m)
      | _ => .error "Too many override matches!"

/-- Processing of one container entry whose payload is a zip (the body of
the loop at lines 289–330): resolve a rule, dispatch on its strategy, and
return the files written for this entry.  An error from
`rebuild_mame_subfolder_zip` is caught by the inner `try` (lines 325–330)
and yields no output; errors from `find_override` or `transforms`
propagate. -/
def processOneEntry (id : PyStr) (meta : RomMeta) (off : Nat) (z : Zip) :
    Except String (List (PyStr × OutData)) := do
  let ov? ← find_override meta off
  match ov? with
  | some ov =>
      match ov.strategy with
      | none =>
          .ok [("BAD_".data ++ id ++ "_".data ++ (Nat.repr off).data ++ "_nyi.zip".data,
            .zipOut z)]
      | some strat =>
          if strat = "rename".data then
            .ok [(ov.mame_name ++ ".zip".data, .zipOut z)]
          else if strat = "split_1941".data then
            .ok (split_1941 z)
          else if strat = "demerge".data then
            .ok [("BAD_".data ++ id ++ "_".data ++ (Nat.repr off).data ++ "_".data ++
              ov.mame_name ++ "_demerge_nyi.zip".data, .zipOut z)]
          else if strat = "transforms".data then do
            let r ← transforms z ov
            .ok [(ov.mame_name ++ ".zip".data, .zipOut r.1),
                 (ov.mame_name ++ "_orig.zip".data, .zipOut z)]
          else
            .ok [("BAD_".data ++ id ++ "_".data ++ (Nat.repr off).data ++ "_".data ++
              strat ++ "_nyi.zip".data, .zipOut z)]
  | none =>
      match rebuild_mame_subfolder_zip z with
      | .ok r => .ok [(r.1, .zipOut r.2)]
      | .error _ => .ok []

/-- The loop over one container's zip entries (lines 289–330).  An
uncaught exception from an entry propagates to the per-file handler at
lines 331–334: outputs already written are kept, the remaining entries of
this container are not processed. -/
def processZips (id : PyStr) (meta : RomMeta) : List (Nat × Zip) → List (PyStr × OutData)
  | [] => []
  | (off, z) :: rest =>
      match processOneEntry id meta off z with
      | .ok outs => outs ++ processZips id meta rest
      | .error _ => []

/-- The batch loop over container files (lines 257–336): each file's
processing is wrapped in its own `try`, so the batch always continues to
the next file. -/
def processBatch : List (PyStr × RomMeta × List (Nat × Zip)) → List (PyStr × OutData)
  | [] => []
  | (id, meta, zips) :: fs => processZips id meta zips ++ processBatch fs

/-! ### The container reader (`parse_kpka_archive`, rebuild.py lines 129–182)

`zlib.decompress(contents, wbits=-15)` (raw-stream inflate) is the Python
standard library; the reader is parameterised by it.  The byte order
passed to every `int.from_bytes` call is `sys.byteorder`, the HOST byte
order — also a parameter. -/

/-- Warnings logged on unsupported compression flags (lines 170–177). -/
inductive KDiag where
  | zstdNYI
  | flagNYI (flag : Nat)
deriving DecidableEq

/-- Payload resolution for one entry descriptor (the flag dispatch at
lines 163–177). -/
def resolveEntry (inflate : Bytes → Except String Bytes) (bytes : Bytes)
    (offset zsize size flag : Nat) : Except String (Bytes × Option KDiag) :=
  if flag = 0 ∨ flag = 1024 then
    .ok (pyslice bytes offset (offset + size), none)
  else if flag = 1 then do
    let c ← inflate (pyslice bytes offset (offset + zsize))
    .ok (c, none)
  else if flag = 2 then
    .ok (pyslice bytes offset (offset + zsize), some .zstdNYI)
  else
    .ok (pyslice bytes offset (offset + zsize), some (.flagNYI flag))

/-- The descriptor loop of `parse_kpka_archive` (lines 144–180): `count`
descriptors starting at `pos`, accumulating the `files` dict. -/
def parseLoop (bo : ByteOrder) (inflate : Bytes → Except String Bytes) (bytes : Bytes) :
    Nat → Nat → List (Nat × Bytes) → Except String (List (Nat × Bytes))
  | 0, _, files => .ok files
  | n + 1, pos, files =>
      let _name_crc_l := intFromBytes bo (pyslice bytes pos (pos + 4))
      let _name_crc_u := intFromBytes bo (pyslice bytes (pos + 4) (pos + 8))
      let offset := intFromBytes bo (pyslice bytes (pos + 8) (pos + 16))
      let zsize := intFromBytes bo (pyslice bytes (pos + 16) (pos + 24))
      let size := intFromBytes bo (pyslice bytes (pos + 24) (pos + 32))
      let flag := intFromBytes bo (pyslice bytes (pos + 32) (pos + 40))
      let _dummy_2 := intFromBytes bo (pyslice bytes (pos + 40) (pos + 44))
      let _dummy_3 := intFromBytes bo (pyslice bytes (pos + 44) (pos + 48))
      match resolveEntry inflate bytes offset zsize size flag with
      | .error e => .error e
      | .ok (contents, _) =>
          parseLoop bo inflate bytes n (pos + 48) (dictInsert files offset contents)

/-- `parse_kpka_archive` (lines 129–182), parameterised by the host byte
order `bo` (`sys.byteorder`) and the inflate primitive.  The result is
the `files` dict: offset → resolved payload, in insertion order. -/
def parse_kpka_archive (bo : ByteOrder) (inflate : Bytes → Except String Bytes)
    (bytes : Bytes) : Except String (List (Nat × Bytes)) :=
  if pyslice bytes 0 4 ≠ [75, 80, 75, 65] then
    .error "Not a valid KPKA archive!"
  else
    let _version := intFromBytes bo (pyslice bytes 4 8)
    let total_files := intFromBytes bo (pyslice bytes 8 12)
    let _dummy_val := intFromBytes bo (pyslice bytes 12 16)
    parseLoop bo inflate bytes total_files 16 []

/-- Adjacent-pair swap: the value of a successful `endian` step. -/
def swapPairs : Bytes → Bytes
  | a :: b :: t => b :: a :: swapPairs t
  | _ => []

/-- Modelled from the spec (§3, claim C8), for comparison with `getType`:
"the substring after its first separator character"; `none` when the name
has no separator. -/
def afterFirstSep (sep : Char) : PyStr → Option PyStr
  | [] => none
  | c :: t => if c = sep then some t else afterFirstSep sep t

/-! ### Concrete instances used by closed theorems -/

/-- A stand-in for `zlib.decompress(·, wbits=-15)` usable in closed
statements whose evaluation never reaches the flag-1 branch. -/
def noInflate : Bytes → Except String Bytes := fun _ => .error "zlib.error"

/-- The synthetic container of spec §8: magic `KPKA`, version 1, one
entry with offset 64, zsize 0, size 4, flag 0, and payload `b"TEST"` at
byte 64 (all fields stored little-endian). -/
def arch68 : Bytes :=
  [75, 80, 75, 65, 1, 0, 0, 0, 1, 0, 0, 0, 0, 0, 0, 0] ++
  [0, 0, 0, 0, 0, 0, 0, 0] ++ [64, 0, 0, 0, 0, 0, 0, 0] ++
  [0, 0, 0, 0, 0, 0, 0, 0] ++ [4, 0, 0, 0, 0, 0, 0, 0] ++
  [0, 0, 0, 0, 0, 0, 0, 0] ++ [0, 0, 0, 0, 0, 0, 0, 0] ++
  [84, 69, 83, 84]

/-- Two distinct overrides declaring the same container offset 5. -/
def ovDup1 : Override := ⟨5, some "rename".data, "m1".data, []⟩

/-- Second override at offset 5. -/
def ovDup2 : Override := ⟨5, some "rename".data, "m1b".data, []⟩

/-- A well-formed rename override at offset 7. -/
def ovRename7 : Override := ⟨7, some "rename".data, "m2".data, []⟩

/-- Rule table with an ambiguous pair at offset 5 and a unique match at
offset 7. -/
def metaConflict : RomMeta := ⟨some [ovDup1, ovDup2, ovRename7]⟩

/-- A transform step whose action is none of the six supported names. -/
def trBogus : TransformStep := ⟨"bogus".data, 0, 0, [], 0, 0, 0⟩

/-- A Part Spec whose pipeline starts with the unsupported step. -/
def pmBogus : PartMeta := ⟨[⟨"out.bin".data, "00".data⟩], [trBogus]⟩

/-- A transforms-strategy override at offset 5 whose part `a` uses the
unsupported step. -/
def ovBogus : Override := ⟨5, some "transforms".data, "m1".data, [("a".data, pmBogus)]⟩

/-- Rule table pairing the bogus-transform override with a healthy rename
override at offset 7. -/
def metaBogus : RomMeta := ⟨some [ovBogus, ovRename7]⟩

/-! ## Theorems -/

set_option maxRecDepth 10000 in
/-- FIPS 180 test vector validating the SHA-1 model: the digest of
`"abc"`. -/
theorem sha1Hex_abc :
    sha1Hex [97, 98, 99] = "a9993e364706816aba3e25717850c26c9cd0d89d".data := by
  decide

/-! ### The `endian` step (claims C7, C10) -/

theorem endianStep_cons2 (a b : Nat) (t : Bytes) :
    endianStep (a :: b :: t) = (endianStep t).map fun r => b :: a :: r := by
  simp only [endianStep, List.length_cons, List.replicate_succ, takeOdd, takeEven, assignEven,
    bind, Option.bind]
  cases h : assignEven (List.replicate t.length 0) (takeOdd t) with
  | none => simp [h]
  | some r =>
      simp only [h, Option.map_some', assignOdd]
      cases h2 : assignOdd r (takeEven t) <;> simp [h2]

theorem endianStep_eq : ∀ c : Bytes,
    endianStep c = if c.length % 2 = 0 then some (swapPairs c) else none
  | [] => by decide
  | [a] => by simp [endianStep, takeOdd, takeEven, assignEven]
  | a :: b :: t => by
      rw [endianStep_cons2, endianStep_eq t]
      by_cases h : t.length % 2 = 0
      · rw [if_pos h,
          if_pos (show (a :: b :: t).length % 2 = 0 by simp only [List.length_cons]; omega)]
        simp [swapPairs]
      · rw [if_neg h,
          if_neg (show ¬(a :: b :: t).length % 2 = 0 by simp only [List.length_cons]; omega)]
        simp

theorem swapPairs_length : ∀ c : Bytes, c.length % 2 = 0 → (swapPairs c).length = c.length
  | [], _ => rfl
  | [a], h => by simp at h
  | a :: b :: t, h => by
      have ht : t.length % 2 = 0 := by simp only [List.length_cons] at h; omega
      simp [swapPairs, swapPairs_length t ht]

theorem swapPairs_invol : ∀ c : Bytes, c.length % 2 = 0 → swapPairs (swapPairs c) = c
  | [], _ => rfl
  | [a], h => by simp at h
  | a :: b :: t, h => by
      have ht : t.length % 2 = 0 := by simp only [List.length_cons] at h; omega
      simp [swapPairs, swapPairs_invol t ht]

/-- C7: on every chunk of even length the `endian` step succeeds, and
applying it twice returns the original chunk exactly (one application
exchanges the bytes at indices 2k and 2k+1). -/
theorem endian_involution (c : Bytes) (h : c.length % 2 = 0) :
    ∃ d, endianStep c = some d ∧ endianStep d = some c := by
  refine ⟨swapPairs c, ?_, ?_⟩
  · rw [endianStep_eq c, if_pos h]
  · rw [endianStep_eq (swapPairs c), if_pos (by rw [swapPairs_length c h]; exact h),
      swapPairs_invol c h]

/-- Witness for C7 at the concrete even-length chunk `[1,2,3,4]`. -/
theorem endian_involution_witness :
    ([1, 2, 3, 4] : Bytes).length % 2 = 0 ∧
      ∃ d, endianStep [1, 2, 3, 4] = some d ∧ endianStep d = some [1, 2, 3, 4] :=
  ⟨by decide, endian_involution [1, 2, 3, 4] (by decide)⟩

/-- C10: the `endian` step fails (raises `ValueError` from the mismatched
extended-slice assignment) exactly on chunks of odd length. -/
theorem endian_fails_iff_odd (c : Bytes) :
    endianStep c = none ↔ c.length % 2 = 1 := by
  rw [endianStep_eq c]
  by_cases h : c.length % 2 = 0
  · simp [h]
  · simp [h]
    omega


/-! ### Part-type extraction (claim C8) -/

theorem splitOnCharL_head (sep : Char) :
    ∀ t : List Char, ∃ r, splitOnCharL sep t = (t.takeWhile fun c => c != sep) :: r := by
  intro t
  induction t with
  | nil => exact ⟨[], rfl⟩
  | cons c t ih =>
      obtain ⟨r, hr⟩ := ih
      by_cases hc : c = sep
      · refine ⟨(t.takeWhile fun c => c != sep) :: r, ?_⟩
        simp [splitOnCharL, hr, hc]
      · refine ⟨r, ?_⟩
        simp [splitOnCharL, hr, hc]

/-- C8 counterexample: for the member filename `"x.y.z"` the code keys the
payload under `split('.')[1] = "y"`, while the substring after the first
separator is `"y.z"`. -/
theorem partType_counterexample :
    getType "x.y.z".data = some "y".data ∧
      afterFirstSep '.' "x.y.z".data = some "y.z".data ∧
      getType "x.y.z".data ≠ afterFirstSep '.' "x.y.z".data := by
  refine ⟨by decide, by decide, by decide⟩

/-- C8 amended: the part-type label is the second `'.'`-separated field of
the member's filename — the substring after the first separator truncated
at the next separator (`none`, an `IndexError`, when there is no
separator at all). -/
theorem partType_second_field (name : PyStr) :
    getType name = (afterFirstSep '.' name).map fun r => r.takeWhile fun c => c != '.' := by
  induction name with
  | nil => rfl
  | cons c t ih =>
      obtain ⟨r, hr⟩ := splitOnCharL_head '.' t
      by_cases hc : c = '.'
      · subst hc
        simp [getType, splitOnCharL, hr, afterFirstSep]
      · simp only [getType, splitOnCharL, hr, if_neg hc, afterFirstSep] at ih ⊢
        rw [← ih]
        rfl


/-! ### Rule resolution and failure scope (claims C3, C9) -/

theorem processZips_cons_error (id : PyStr) (meta : RomMeta) (off : Nat) (z : Zip)
    (rest : List (Nat × Zip)) (e : String)
    (h : processOneEntry id meta off z = .error e) :
    processZips id meta ((off, z) :: rest) = [] := by
  simp only [processZips, h]

theorem processBatch_cons (f : PyStr × RomMeta × List (Nat × Zip))
    (fs : List (PyStr × RomMeta × List (Nat × Zip))) :
    processBatch (f :: fs) = processZips f.1 f.2.1 f.2.2 ++ processBatch fs := rfl

/-- C3 counterexample: with two overrides declaring offset 5 and a unique
rename override at offset 7, the conflict at the first entry leaves the
offset-7 entry unprocessed (no `m2.zip` output), so the failure does not
abort "only that single container entry". -/
theorem conflict_counterexample :
    find_override metaConflict 5 = .error "Too many override matches!" ∧
      find_override metaConflict 7 = .ok (some ovRename7) ∧
      processZips "id01234".data metaConflict [(5, []), (7, [])] = [] := by
  refine ⟨rfl, rfl, rfl⟩

/-- C3 amended: `resolve` returns no override on zero matches, the single
override on exactly one match, and fails with `ConflictError` on several;
that failure aborts the failing entry and all remaining entries of the
same container file, while the batch continues with the next container
file. -/
theorem find_override_cases :
    (∀ (meta : RomMeta) (off : Nat), meta.overrides = none →
      find_override meta off = .ok none) ∧
    (∀ (meta : RomMeta) (off : Nat) (ovs : List Override), meta.overrides = some ovs →
      ovs.filter (fun o => o.kpka_offset == off) = [] →
      find_override meta off = .ok none) ∧
    (∀ (meta : RomMeta) (off : Nat) (ovs : List Override) (m : Override),
      meta.overrides = some ovs →
      ovs.filter (fun o => o.kpka_offset == off) = [m] →
      find_override meta off = .ok (some m)) ∧
    (∀ (meta : RomMeta) (off : Nat) (ovs : List Override) (m1 m2 : Override)
      (ms : List Override), meta.overrides = some ovs →
      ovs.filter (fun o => o.kpka_offset == off) = m1 :: m2 :: ms →
      find_override meta off = .error "Too many override matches!") ∧
    (∀ (id : PyStr) (meta : RomMeta) (off : Nat) (z : Zip) (rest : List (Nat × Zip))
      (e : String), find_override meta off = .error e →
      processZips id meta ((off, z) :: rest) = []) ∧
    (∀ (f : PyStr × RomMeta × List (Nat × Zip))
      (fs : List (PyStr × RomMeta × List (Nat × Zip))),
      processBatch (f :: fs) = processZips f.1 f.2.1 f.2.2 ++ processBatch fs) := by
  refine ⟨?_, ?_, ?_, ?_, ?_, ?_⟩
  · intro meta off h
    simp [find_override, h]
  · intro meta off ovs h hf
    simp [find_override, h, hf]
  · intro meta off ovs m h hf
    simp [find_override, h, hf]
  · intro meta off ovs m1 m2 ms h hf
    simp [find_override, h, hf]
  · intro id meta off z rest e h
    apply processZips_cons_error id meta off z rest e
    unfold processOneEntry
    rw [h]
    rfl
  · intro f fs
    exact processBatch_cons f fs

/-- Witness for C3 (amended): the conflict case applied to the concrete
ambiguous rule table. -/
theorem find_override_cases_witness :
    metaConflict.overrides = some [ovDup1, ovDup2, ovRename7] ∧
      find_override metaConflict 5 = .error "Too many override matches!" :=
  ⟨rfl, find_override_cases.2.2.2.1 metaConflict 5 [ovDup1, ovDup2, ovRename7]
    ovDup1 ovDup2 [] rfl (by decide)⟩

/-- C9 counterexample: an override whose part `a` starts with the
unsupported action `"bogus"` makes `transforms` raise, and with it the
whole container's processing stops — the healthy rename entry at offset 7
produces no output, so the remaining part-types and entries are NOT still
processed. -/
theorem unsupported_step_counterexample :
    transforms [("x.a".data, [1, 2])] ovBogus =
        .error "********* Transform action bogus NYI!" ∧
      processZips "id01234".data metaBogus [(5, [("x.a".data, [1, 2])]), (7, [])] = [] := by
  refine ⟨rfl, rfl⟩

/-- C9 amended: a transform step whose action is none of the six
supported operations fails with `UnsupportedStepError`; the failure
aborts not only that part-type's pipeline but the processing of the whole
container file (remaining part-types and remaining entries included),
while other container files of the batch are still processed. -/
theorem unsupported_step_aborts_container :
    (∀ (tr : TransformStep) (chunks : List Bytes),
      tr.action ≠ "split".data → tr.action ≠ "split_size".data →
      tr.action ≠ "deinterleave".data → tr.action ≠ "truncate".data →
      tr.action ≠ "splice_out".data → tr.action ≠ "endian".data →
      applyTransform tr chunks =
        .error ("********* Transform action " ++ String.mk tr.action ++ " NYI!")) ∧
    (∀ (id : PyStr) (meta : RomMeta) (off : Nat) (z : Zip) (rest : List (Nat × Zip))
      (ov : Override) (e : String), find_override meta off = .ok (some ov) →
      ov.strategy = some "transforms".data → transforms z ov = .error e →
      processZips id meta ((off, z) :: rest) = []) ∧
    (∀ (f : PyStr × RomMeta × List (Nat × Zip))
      (fs : List (PyStr × RomMeta × List (Nat × Zip))),
      processBatch (f :: fs) = processZips f.1 f.2.1 f.2.2 ++ processBatch fs) := by
  refine ⟨?_, ?_, ?_⟩
  · intro tr chunks h1 h2 h3 h4 h5 h6
    simp [applyTransform, h1, h2, h3, h4, h5, h6]
  · intro id meta off z rest ov e hov hstrat htr
    apply processZips_cons_error id meta off z rest e
    obtain ⟨koff, strat, mname, pts⟩ := ov
    have hs : strat = some "transforms".data := hstrat
    subst hs
    have hstep : processOneEntry id meta off z = (do
        let r ← transforms z ⟨koff, some "transforms".data, mname, pts⟩
        Except.ok [(mname ++ ".zip".data, OutData.zipOut r.1),
          (mname ++ "_orig.zip".data, OutData.zipOut z)]) := by
      unfold processOneEntry
      rw [hov]
      rfl
    rw [hstep, htr]
    rfl
  · intro f fs
    exact processBatch_cons f fs

/-- Witness for C9 (amended): the unsupported-action case applied to the
concrete bogus step. -/
theorem unsupported_step_aborts_container_witness :
    trBogus.action ≠ "split".data ∧
      applyTransform trBogus [] = .error "********* Transform action bogus NYI!" := by
  refine ⟨by decide, ?_⟩
  have h := unsupported_step_aborts_container.1 trBogus [] (by decide) (by decide)
    (by decide) (by decide) (by decide) (by decide)
  simpa using h


/-! ### Compression-flag dispatch (claim C6) -/

/-- C6: payload resolution dispatches on the compression flag: flag 0 or
the raw sentinel 1024 slices `[offset, offset+size)`; flag 1 raw-inflates
the slice `[offset, offset+zsize)`; flag 2 and every other unrecognized
flag return the slice `[offset, offset+zsize)` unmodified with a
non-fatal unsupported-compression diagnostic, never raising. -/
theorem flag_dispatch (inflate : Bytes → Except String Bytes) (bytes : Bytes)
    (offset zsize size flag : Nat) :
    (flag = 0 ∨ flag = 1024 →
      resolveEntry inflate bytes offset zsize size flag =
        .ok (pyslice bytes offset (offset + size), none)) ∧
    (flag = 1 →
      resolveEntry inflate bytes offset zsize size flag =
        (inflate (pyslice bytes offset (offset + zsize))).map fun c => (c, none)) ∧
    (flag = 2 →
      resolveEntry inflate bytes offset zsize size flag =
        .ok (pyslice bytes offset (offset + zsize), some .zstdNYI)) ∧
    (flag ≠ 0 → flag ≠ 1024 → flag ≠ 1 → flag ≠ 2 →
      resolveEntry inflate bytes offset zsize size flag =
        .ok (pyslice bytes offset (offset + zsize), some (.flagNYI flag))) := by
  refine ⟨?_, ?_, ?_, ?_⟩
  · intro h
    rcases h with h | h <;> (subst h; simp [resolveEntry])
  · intro h
    subst h
    cases hi : inflate (pyslice bytes offset (offset + zsize)) <;>
      (simp only [resolveEntry, hi, Except.map]; rfl)
  · intro h
    subst h
    simp [resolveEntry]
  · intro h0 h1024 h1 h2
    simp [resolveEntry, h0, h1024, h1, h2]

/-- Witness for C6: an unrecognized flag (9) on a concrete container. -/
theorem flag_dispatch_witness :
    (9 : Nat) ≠ 0 ∧
      resolveEntry noInflate [5, 6, 7, 8] 1 2 3 9 =
        .ok (pyslice [5, 6, 7, 8] 1 (1 + 2), some (KDiag.flagNYI 9)) :=
  ⟨by decide, (flag_dispatch noInflate [5, 6, 7, 8] 1 2 3 9).2.2.2
    (by decide) (by decide) (by decide) (by decide)⟩

/-! ### Checksum verification (claim C4) -/

/-- C4: the checksum loop hashes each final chunk with SHA-1, pairs it
positionally with its file descriptor, emits a mismatch diagnostic naming
the computed and expected hashes (and the length), and stores the chunk
under the descriptor's declared name in BOTH cases — the resulting output
mapping does not depend on the hash comparison. -/
theorem checksum_advisory :
    ∀ (chunks : List Bytes) (files : List FileEntry) (nd : List (PyStr × Bytes)),
      chunks.length = files.length →
      checkChunks nd chunks files = .ok
        ((chunks.zip files).foldl (fun d p => dictInsert d p.2.name p.1) nd,
         (chunks.zip files).filterMap fun p =>
           if sha1Hex p.1 = p.2.sha1 then none
           else some ⟨p.2.name, sha1Hex p.1, p.2.sha1, p.1.length⟩)
  | [], [], nd, _ => rfl
  | [], f :: fs, nd, h => by simp at h
  | c :: cs, [], nd, h => by simp at h
  | c :: cs, f :: fs, nd, h => by
      have h2 : cs.length = fs.length := by simpa using h
      have ih := checksum_advisory cs fs (dictInsert nd f.name c) h2
      simp only [checkChunks, ih, Except.map, List.zip_cons_cons, List.foldl_cons,
        List.filterMap_cons]
      by_cases hm : sha1Hex c = f.sha1 <;> simp [hm]

/-- Witness for C4: one chunk whose hash mismatches its descriptor is
still stored under the declared name. -/
theorem checksum_advisory_witness :
    ([[97, 98, 99]] : List Bytes).length = [(⟨"f".data, "00".data⟩ : FileEntry)].length ∧
      checkChunks [] [[97, 98, 99]] [⟨"f".data, "00".data⟩] = .ok
        ((([[97, 98, 99]] : List Bytes).zip [(⟨"f".data, "00".data⟩ : FileEntry)]).foldl
          (fun d p => dictInsert d p.2.name p.1) [],
         (([[97, 98, 99]] : List Bytes).zip [(⟨"f".data, "00".data⟩ : FileEntry)]).filterMap
           fun p =>
             if sha1Hex p.1 = p.2.sha1 then none
             else some ⟨p.2.name, sha1Hex p.1, p.2.sha1, p.1.length⟩) :=
  ⟨rfl, checksum_advisory [[97, 98, 99]] [⟨"f".data, "00".data⟩] [] rfl⟩


/-! ### Default reconstruction (claim C5) -/

theorem mapM_getSecond (l : Zip) (h : ∀ e ∈ l, (getSecond e.1).isSome) :
    (l.mapM fun e =>
        match getSecond e.1 with
        | some nm => Except.ok ((nm, e.2) : PyStr × Bytes)
        | none => Except.error "IndexError: list index out of range") =
      .ok (l.map fun e => ((getSecond e.1).getD [], e.2)) := by
  induction l with
  | nil => rfl
  | cons a t ih =>
      have ha := h a (by simp)
      cases hs : getSecond a.1 with
      | none => rw [hs] at ha; simp at ha
      | some nm =>
          have ht := ih fun e he => h e (by simp [he])
          simp only [List.mapM_cons, hs, ht, List.map_cons]
          rfl

/-- C5 counterexample: for a member named `"foo/bar/baz"` the rebuilt
archive holds the member under `"bar"` (the second `'/'`-separated
field), not under `"bar/baz"` (the name with the prefix stripped). -/
theorem subfolder_counterexample :
    rebuild_mame_subfolder_zip [("foo/bar/baz".data, [1, 2])] =
        .ok ("foo.zip".data, [("bar".data, [1, 2])]) ∧
      rebuild_mame_subfolder_zip [("foo/bar/baz".data, [1, 2])] ≠
        .ok ("foo.zip".data, [("bar/baz".data, [1, 2])]) := by
  refine ⟨rfl, fun h => ?_⟩
  rw [show rebuild_mame_subfolder_zip [("foo/bar/baz".data, [1, 2])] =
      .ok ("foo.zip".data, [("bar".data, [1, 2])]) from rfl] at h
  exact absurd (Except.ok.inj h) (by decide)

/-- C5 amended: when every member shares the first member's `'/'`-prefix,
the result is `<prefix>.zip` with every member renamed to the SECOND
`'/'`-separated field of its name (the segment between the first
separator and the next; for names with a single separator this equals
stripping the prefix), contents unchanged; a first member without a
separator or a prefix mismatch fails with `LayoutError`, and such a
failure skips only that sub-archive (the entry yields no output, the
batch continues). -/
theorem subfolder_rebuild :
    (∀ (z : Zip) (n0 : PyStr) (d0 : Bytes) (rest : List (PyStr × Bytes)),
      z = (n0, d0) :: rest → '/' ∈ n0 →
      (∀ e ∈ z, getPre e.1 = getPre n0) →
      (∀ e ∈ z, (getSecond e.1).isSome) →
      rebuild_mame_subfolder_zip z =
        .ok (getPre n0 ++ ".zip".data, z.map fun e => ((getSecond e.1).getD [], e.2))) ∧
    (∀ (n0 : PyStr) (d0 : Bytes) (rest : List (PyStr × Bytes)), ¬ ('/' ∈ n0) →
      rebuild_mame_subfolder_zip ((n0, d0) :: rest) =
        .error "not a mame subfolder zip - no slash in first zip entry") ∧
    (∀ (z : Zip) (n0 : PyStr) (d0 : Bytes) (rest : List (PyStr × Bytes)),
      z = (n0, d0) :: rest → '/' ∈ n0 →
      (∃ e ∈ z, getPre e.1 ≠ getPre n0) →
      ∃ msg, rebuild_mame_subfolder_zip z = .error msg) ∧
    (∀ (id : PyStr) (meta : RomMeta) (off : Nat) (z : Zip) (e : String),
      find_override meta off = .ok none →
      rebuild_mame_subfolder_zip z = .error e →
      processOneEntry id meta off z = .ok []) := by
  refine ⟨?_, ?_, ?_, ?_⟩
  · intro z n0 d0 rest hz hmem hall hsec
    subst hz
    have hfind : ((n0, d0) :: rest).find? (fun e => getPre e.1 != getPre n0) = none := by
      rw [List.find?_eq_none]
      intro x hx
      simp [hall x hx]
    simp only [rebuild_mame_subfolder_zip, if_pos hmem, hfind]
    rw [mapM_getSecond ((n0, d0) :: rest) hsec]
    rfl
  · intro n0 d0 rest hmem
    simp only [rebuild_mame_subfolder_zip, if_neg hmem]
  · intro z n0 d0 rest hz hmem hex
    subst hz
    have hsome : (((n0, d0) :: rest).find? (fun e => getPre e.1 != getPre n0)).isSome := by
      rw [List.find?_isSome]
      obtain ⟨e, he, hne⟩ := hex
      exact ⟨e, he, by simp [hne]⟩
    obtain ⟨e', he'⟩ := Option.isSome_iff_exists.mp hsome
    refine ⟨"not a mame subfolder zip - " ++ String.mk (getPre e'.1) ++
      " != " ++ String.mk (getPre n0), ?_⟩
    simp only [rebuild_mame_subfolder_zip, if_pos hmem, he']
  · intro id meta off z e hfind hreb
    have step : processOneEntry id meta off z =
        (match rebuild_mame_subfolder_zip z with
          | .ok r => .ok [(r.1, OutData.zipOut r.2)]
          | .error _ => .ok []) := by
      unfold processOneEntry
      rw [hfind]
      rfl
    rw [step, hreb]

/-- Witness for C5 (amended): the happy path on a one-member archive with
shared prefix `"foo"`. -/
theorem subfolder_rebuild_witness :
    '/' ∈ "foo/a".data ∧
      rebuild_mame_subfolder_zip [("foo/a".data, [9])] =
        .ok (getPre "foo/a".data ++ ".zip".data,
          [(("foo/a".data, [9]) : PyStr × Bytes)].map fun e =>
            ((getSecond e.1).getD [], e.2)) :=
  ⟨by decide, subfolder_rebuild.1 [("foo/a".data, [9])] "foo/a".data [9] [] rfl
    (by decide) (by decide) (by decide)⟩


/-! ### Deinterleave (claim C1) -/

theorem pyslice_length (l : Bytes) (a b : Nat) :
    (pyslice l a b).length = min b l.length - a := by
  simp [pyslice]

theorem range_map_getD (ways w : Nat) (hw : w < ways) (f : Nat → Bytes) :
    ((List.range ways).map f).getD w [] = f w := by
  simp [List.getD_eq_getElem?_getD, List.getElem?_range hw]

theorem replicate_getD (ways w : Nat) :
    (List.replicate ways ([] : Bytes)).getD w [] = [] := by
  rw [List.getD_eq_getElem?_getD, List.getElem?_replicate]
  by_cases h : w < ways <;> simp [h]

theorem deinter_foldl_getD (ways : Nat) (F : Nat → Nat → Bytes) (w : Nat) (hw : w < ways) :
    ∀ (n : Nat) (temp : List Bytes),
      (((List.range n).foldl
          (fun t i => (List.range ways).map fun j => t.getD j [] ++ F i j) temp).getD w []) =
        temp.getD w [] ++ (List.range n).flatMap fun i => F i w
  | 0, temp => by simp
  | n + 1, temp => by
      rw [List.range_succ, List.foldl_append, List.foldl_cons, List.foldl_nil,
        range_map_getD ways w hw, deinter_foldl_getD ways F w hw n temp,
        List.flatMap_append]
      simp

theorem deinter_foldl_length (ways : Nat) (F : Nat → Nat → Bytes) :
    ∀ (n : Nat) (temp : List Bytes), temp.length = ways →
      ((List.range n).foldl
        (fun t i => (List.range ways).map fun j => t.getD j [] ++ F i j) temp).length = ways
  | 0, temp, h => by simpa using h
  | n + 1, temp, h => by
      rw [List.range_succ, List.foldl_append, List.foldl_cons, List.foldl_nil]
      simp

theorem flatMap_const_length (ws : Nat) (f : Nat → Bytes) :
    ∀ g : Nat, (∀ i < g, (f i).length = ws) →
      ((List.range g).flatMap f).length = g * ws
  | 0, _ => by simp
  | g + 1, h => by
      rw [List.range_succ, List.flatMap_append]
      simp only [List.length_append,
        flatMap_const_length ws f g fun i hi => h i (Nat.lt_succ_of_lt hi),
        List.flatMap_cons, List.flatMap_nil, List.append_nil, h g (Nat.lt_succ_self g)]
      ring

/-- C1: for positive `ways` and `word_size`, `deinterleave` turns each
input chunk into exactly `ways` output chunks; output chunk `w` is the
concatenation over the `g = len / (ways*word_size)` full groups of the
`w`-th `word_size`-byte word of each group, so it has length
`g * word_size` (a trailing partial group is discarded); and on
`b"ABCDEF"` with `ways = 2`, `word_size = 1` the outputs are `b"ACE"`
and `b"BDF"`. -/
theorem deinterleave_shape :
    (∀ (ways wordSize : Nat) (chunk : Bytes), 0 < ways → 0 < wordSize →
      (deinterleaveChunk ways wordSize chunk).length = ways ∧
      ∀ w, w < ways →
        (deinterleaveChunk ways wordSize chunk).getD w [] =
          ((List.range (chunk.length / (ways * wordSize))).flatMap fun i =>
            pyslice
              (pyslice chunk (i * (ways * wordSize)) (i * (ways * wordSize) + ways * wordSize))
              (w * wordSize) (w * wordSize + wordSize)) ∧
        ((deinterleaveChunk ways wordSize chunk).getD w []).length =
          chunk.length / (ways * wordSize) * wordSize) ∧
    deinterleaveChunk 2 1 [65, 66, 67, 68, 69, 70] = [[65, 67, 69], [66, 68, 70]] := by
  constructor
  · intro ways wordSize chunk hways hws
    have hgl : 0 < ways * wordSize := Nat.mul_pos hways hws
    constructor
    · exact deinter_foldl_length ways _ _ (List.replicate ways []) (List.length_replicate _ _)
    · intro w hw
      have hword : ∀ i, i < chunk.length / (ways * wordSize) →
          (pyslice
            (pyslice chunk (i * (ways * wordSize)) (i * (ways * wordSize) + ways * wordSize))
            (w * wordSize) (w * wordSize + wordSize)).length = wordSize := by
        intro i hi
        have hile : (i + 1) * (ways * wordSize) ≤ chunk.length := by
          calc (i + 1) * (ways * wordSize)
              ≤ chunk.length / (ways * wordSize) * (ways * wordSize) :=
                Nat.mul_le_mul_right _ hi
            _ ≤ chunk.length := Nat.div_mul_le_self _ _
        have hgrp : (pyslice chunk (i * (ways * wordSize))
            (i * (ways * wordSize) + ways * wordSize)).length = ways * wordSize := by
          rw [pyslice_length]
          have : i * (ways * wordSize) + ways * wordSize ≤ chunk.length := by
            have := hile
            nlinarith
          omega
        have hwle : w * wordSize + wordSize ≤ ways * wordSize := by
          have : (w + 1) * wordSize ≤ ways * wordSize := Nat.mul_le_mul_right _ hw
          nlinarith
        rw [pyslice_length, hgrp]
        omega
      have hmain : (deinterleaveChunk ways wordSize chunk).getD w [] =
          ((List.range (chunk.length / (ways * wordSize))).flatMap fun i =>
            pyslice
              (pyslice chunk (i * (ways * wordSize)) (i * (ways * wordSize) + ways * wordSize))
              (w * wordSize) (w * wordSize + wordSize)) := by
        show (((List.range (chunk.length / (ways * wordSize))).foldl
            (fun temp i => (List.range ways).map fun j =>
              temp.getD j [] ++
                pyslice
                  (pyslice chunk (i * (ways * wordSize)) (i * (ways * wordSize) + ways * wordSize))
                  (j * wordSize) (j * wordSize + wordSize))
            (List.replicate ways [])).getD w []) = _
        rw [deinter_foldl_getD ways _ w hw, replicate_getD, List.nil_append]
      refine ⟨hmain, ?_⟩
      rw [hmain]
      exact flatMap_const_length wordSize _ _ hword
  · decide

/-- Witness for C1 at `ways = 2`, `word_size = 2` on an 8-byte chunk,
instantiated at output index 1. -/
theorem deinterleave_shape_witness :
    (deinterleaveChunk 2 2 [1, 2, 3, 4, 5, 6, 7, 8]).length = 2 ∧
      (deinterleaveChunk 2 2 [1, 2, 3, 4, 5, 6, 7, 8]).getD 1 [] =
        ((List.range (([1, 2, 3, 4, 5, 6, 7, 8] : Bytes).length / (2 * 2))).flatMap fun i =>
          pyslice (pyslice [1, 2, 3, 4, 5, 6, 7, 8] (i * (2 * 2)) (i * (2 * 2) + 2 * 2))
            (1 * 2) (1 * 2 + 2)) ∧
      ((deinterleaveChunk 2 2 [1, 2, 3, 4, 5, 6, 7, 8]).getD 1 []).length =
        ([1, 2, 3, 4, 5, 6, 7, 8] : Bytes).length / (2 * 2) * 2 :=
  ⟨(deinterleave_shape.1 2 2 [1, 2, 3, 4, 5, 6, 7, 8] (by decide) (by decide)).1,
   (deinterleave_shape.1 2 2 [1, 2, 3, 4, 5, 6, 7, 8] (by decide) (by decide)).2 1 (by decide)⟩


/-! ### Container parsing and host byte order (claim C2) -/

theorem pyslice_oob (l : Bytes) (a b : Nat) (h : l.length ≤ a) : pyslice l a b = [] := by
  apply List.drop_eq_nil_of_le
  calc (l.take b).length = min b l.length := List.length_take b l
    _ ≤ l.length := Nat.min_le_right _ _
    _ ≤ a := h

theorem intFromBytes_nil (bo : ByteOrder) : intFromBytes bo [] = 0 := by
  cases bo <;> rfl

theorem dictInsert_idem {κ α : Type} [DecidableEq κ] (k : κ) (v : α) :
    ∀ d : List (κ × α), dictInsert (dictInsert d k v) k v = dictInsert d k v
  | [] => by simp [dictInsert]
  | (k', v') :: t => by
      by_cases h : k' = k
      · simp [dictInsert, h]
      · simp [dictInsert, h, dictInsert_idem k v t]

theorem parseLoop_oob (bo : ByteOrder) (inflate : Bytes → Except String Bytes) (bytes : Bytes) :
    ∀ (n pos : Nat) (files : List (Nat × Bytes)), bytes.length ≤ pos →
      parseLoop bo inflate bytes (n + 1) pos files = .ok (dictInsert files 0 [])
  | n, pos, files, hpos => by
      have hsl : ∀ a b : Nat, pos ≤ a → pyslice bytes a b = [] := fun a b ha =>
        pyslice_oob bytes a b (Nat.le_trans hpos ha)
      have hres : resolveEntry inflate bytes 0 0 0 0 = .ok ([], none) := rfl
      simp only [parseLoop,
        hsl pos (pos + 4) (Nat.le_refl pos),
        hsl (pos + 4) (pos + 8) (Nat.le_add_right pos 4),
        hsl (pos + 8) (pos + 16) (Nat.le_add_right pos 8),
        hsl (pos + 16) (pos + 24) (Nat.le_add_right pos 16),
        hsl (pos + 24) (pos + 32) (Nat.le_add_right pos 24),
        hsl (pos + 32) (pos + 40) (Nat.le_add_right pos 32),
        hsl (pos + 40) (pos + 44) (Nat.le_add_right pos 40),
        hsl (pos + 44) (pos + 48) (Nat.le_add_right pos 44),
        intFromBytes_nil, hres]
      cases n with
      | zero => simp [parseLoop]
      | succ m =>
          rw [parseLoop_oob bo inflate bytes m (pos + 48) (dictInsert files 0 [])
            (Nat.le_trans hpos (Nat.le_add_right pos 48))]
          rw [dictInsert_idem]

/-- C2 (failing input for the host-byte-order bug): `parse_kpka_archive`
passes `sys.byteorder` to every `int.from_bytes` call, so the same
little-endian container parses to different resolved entries on a
little-endian and a big-endian host: on the synthetic container the
little-endian host returns entry `(64, b"TEST")` while a big-endian host
misreads the entry count as 2^24 and the offsets as huge values. -/
theorem parse_host_dependent :
    parse_kpka_archive .little noInflate arch68 = .ok [(64, [84, 69, 83, 84])] ∧
      parse_kpka_archive .big noInflate arch68 =
        .ok [(4611686018427387904, []), (0, [])] ∧
      parse_kpka_archive .little noInflate arch68 ≠
        parse_kpka_archive .big noInflate arch68 := by
  have hlittle : parse_kpka_archive .little noInflate arch68 =
      .ok [(64, [84, 69, 83, 84])] := rfl
  have hbig1 : parse_kpka_archive .big noInflate arch68 =
      parseLoop .big noInflate arch68 16777216 16 [] := by
    have hcount : intFromBytes .big (pyslice arch68 8 12) = 16777216 := rfl
    unfold parse_kpka_archive
    rw [if_neg (by decide), hcount]
  have hstep1 : ∀ n : Nat, parseLoop .big noInflate arch68 (n + 1) 16 [] =
      parseLoop .big noInflate arch68 n 64 [(4611686018427387904, [])] := fun _ => rfl
  have hstep2 : ∀ n : Nat,
      parseLoop .big noInflate arch68 (n + 1) 64 [(4611686018427387904, [])] =
        parseLoop .big noInflate arch68 n 112 [(4611686018427387904, []), (0, [])] :=
    fun _ => rfl
  have hbig : parse_kpka_archive .big noInflate arch68 =
      .ok [(4611686018427387904, []), (0, [])] := by
    rw [hbig1, show (16777216 : Nat) = 16777215 + 1 from rfl, hstep1 16777215,
      show (16777215 : Nat) = 16777214 + 1 from rfl, hstep2 16777214,
      show (16777214 : Nat) = 16777213 + 1 from rfl,
      parseLoop_oob .big noInflate arch68 16777213 112
        [(4611686018427387904, []), (0, [])] (by decide)]
    rfl
  refine ⟨hlittle, hbig, ?_⟩
  rw [hlittle, hbig]
  intro h
  exact absurd (Except.ok.inj h) (by decide)

end Rebuild
